import Mathlib

/-!
Verification of the per-connection I/O engine of the io-queue-rdma library.

The definitions below are a shallow embedding of `src/src/executor.rs` and the
parts of `src/src/lib.rs` that the claims refer to.  The repository module
`control_flow.rs` is referenced by the executor but is not part of the sources
here; the `ControlFlow` type and its operations are therefore modelled from the
specification (each such definition says so in its doc comment).

Modelling conventions:
- `u64` counters are modelled as `Nat` (they only grow by small increments, and
  every subtraction performed by the code is guarded so that it cannot
  underflow on the runs the theorems are about).
- Rust panics (`panic!`, `expect`, failed `assert!`) are modelled as explicit
  error results (`StepOut.fatal`, `Except.error`, or `ExecFailure.panicked`).
- A coroutine iteration is modelled run-to-completion: a poll that suspends
  without completing an iteration is the `pending` outcome and leaves the
  state unchanged, so it appears as a stutter in the transition system.
- The batches handed to the verbs layer by `post_send` / `post_receive` are
  recorded in ghost log fields `posted_send_batches` / `posted_recv_batches`;
  the verbs layer itself is outside the engine (spec §1).
-/

namespace IoQueueRdma

/-- A registered buffer, `rdma_cm::RdmaMemory<u8, BUFFER_SIZE>` (external
crate). Modelled from the spec: a fixed-size byte region carrying a current
logical length (number of valid bytes). -/
structure RdmaMemory where
  bytes : List Nat
  len : Nat
deriving DecidableEq

/-- Modelled from the spec: `initialize_length` of the external `RdmaMemory`
type, used by the completion pipeline to set the reported transferred byte
count (spec §4.5 step RECV). -/
def RdmaMemory.fillLength (m : RdmaMemory) (n : Nat) : RdmaMemory :=
  { m with len := n }

/-- Modelled from the spec: `reset_access` of the external `RdmaMemory` type;
`release(buffer)` resets the logical length and access state (spec §4.1). -/
def RdmaMemory.resetAccess (m : RdmaMemory) : RdmaMemory :=
  { m with len := 0 }

/-- Modelled from the spec: `ControlFlow` lives in `src/control_flow.rs`, which
is not among the sources; spec §3 "Credit Counters" and §4.2 describe four
scalar cells.  `remaining_send_window` is `local_send_credits` (the field name
is the one the executor uses at src/src/executor.rs:349),
`remaining_receive_window` is `local_recv_posted`, `peer_inbox` is
`peer_recv_grant_inbox` and `peer_outbox` is `peer_recv_grant_outbox`. -/
structure ControlFlow where
  remaining_send_window : Nat
  remaining_receive_window : Nat
  peer_inbox : Nat
  peer_outbox : Nat
deriving DecidableEq

/-- Modelled from the spec §4.2: `remaining_send_credits()`, current known
credits toward the peer. -/
def ControlFlow.remaining_send_windows (cf : ControlFlow) : Nat :=
  cf.remaining_send_window

/-- Modelled from the spec §4.2: `peer_granted_credits()`, non-destructive read
of the inbox cell. -/
def ControlFlow.other_side_recv_windows (cf : ControlFlow) : Nat :=
  cf.peer_inbox

/-- Modelled from the spec §4.2: `acknowledge_peer_grant()`, zero the inbox
cell. -/
def ControlFlow.ack_peer_recv_windows (cf : ControlFlow) : ControlFlow :=
  { cf with peer_inbox := 0 }

/-- Modelled from the spec §4.2: `consume_send_credits(n)`, called by the push
pipeline after posting `n` sends. -/
def ControlFlow.subtract_remaining_send_windows (cf : ControlFlow) (n : Nat) : ControlFlow :=
  { cf with remaining_send_window := cf.remaining_send_window - n }

/-- Modelled from the spec §4.2: `remaining_recv_credits()`, how many
outstanding receives are posted. -/
def ControlFlow.remaining_receive_windows (cf : ControlFlow) : Nat :=
  cf.remaining_receive_window

/-- Modelled from the spec §4.2: `add_recv_credits(n)`, called by the
recv-refill pipeline after posting `n` receives; also publishes `n` into the
outbox cell. -/
def ControlFlow.add_recv_windows (cf : ControlFlow) (n : Nat) : ControlFlow :=
  { cf with remaining_receive_window := cf.remaining_receive_window + n, peer_outbox := n }

/-- Modelled from the spec §4.2: `consume_recv_credits(n)`, called by the
completion pipeline when `n` recv work requests complete. -/
def ControlFlow.subtract_recv_windows (cf : ControlFlow) (n : Nat) : ControlFlow :=
  { cf with remaining_receive_window := cf.remaining_receive_window - n }

/-- A work completion `rdma_cm::ffi::ibv_wc` (external crate), with the fields
the completion pipeline reads. -/
structure Completion where
  wr_id : Nat
  status : Nat
  opcode : Nat
  byte_len : Nat
deriving DecidableEq

/-- Modelled from the spec: `ibv_wc_status_IBV_WC_SUCCESS` of the verbs ABI. -/
def IBV_WC_SUCCESS : Nat := 0

/-- Modelled from the spec: `ibv_wc_opcode_IBV_WC_SEND` of the verbs ABI. -/
def IBV_WC_SEND : Nat := 0

/-- Modelled from the spec: `ibv_wc_opcode_IBV_WC_RDMA_WRITE` of the verbs ABI. -/
def IBV_WC_RDMA_WRITE : Nat := 1

/-- Modelled from the spec: `ibv_wc_opcode_IBV_WC_RDMA_READ` of the verbs ABI. -/
def IBV_WC_RDMA_READ : Nat := 2

/-- Modelled from the spec: `ibv_wc_opcode_IBV_WC_RECV` of the verbs ABI. -/
def IBV_WC_RECV : Nat := 128

/-- `hashbrown::HashMap<u64, RdmaMemory<u8, SIZE>>` modelled as an association
list; the engine only ever inserts a key that is absent (it asserts this), so
keys stay distinct. -/
abbrev HMap := List (Nat × RdmaMemory)

/-- `HashMap::get`-style lookup. -/
def hmLookup (m : HMap) (k : Nat) : Option RdmaMemory :=
  (m.find? (fun p => p.1 == k)).map (fun p => p.2)

/-- `HashMap::remove`: afterwards the key is absent. -/
def hmErase (m : HMap) (k : Nat) : HMap :=
  m.filter (fun p => p.1 != k)

/-- `assert!(map.insert(k, v).is_none())`: insert that fails (models the panic
"duplicate entry") when the key is already present. -/
def tryInsertNew (m : HMap) (k : Nat) (v : RdmaMemory) : Option HMap :=
  match hmLookup m k with
  | some _ => none
  | none => some (m ++ [(k, v)])

/-- The insertion loops of the push and recv-refill pipelines
(src/src/executor.rs:409 and :504): insert every pair, failing on a duplicate
key. -/
def insertAllNew (m : HMap) : List (Nat × RdmaMemory) → Option HMap
  | [] => some m
  | (k, v) :: rest =>
    match tryInsertNew m k v with
    | none => none
    | some m2 => insertAllNew m2 rest

/-- Per-connection engine state: the shared cells of `ConnectionTask`
(src/src/executor.rs:77) together with the local queues of the coroutines and
the ghost logs of batches handed to the verbs layer.
- `memory_pool` is the `VecDeque` free list (front at the head of the list);
- `push_channel` is the `async_channel` of `WorkRequest`s (`(work_id, memory)`
  pairs, oldest first);
- `work_requests` is the local `VecDeque` of `push_coroutine`;
- `processed_requests` is the shared pending map (both directions);
- `completed_pushes` / `completed_pops` are the completed stores;
- `work_id_counter` is the shared 64-bit counter. -/
structure EngineState where
  memory_pool : List RdmaMemory
  push_channel : List (Nat × RdmaMemory)
  work_requests : List (Nat × RdmaMemory)
  processed_requests : HMap
  completed_pushes : HMap
  completed_pops : List RdmaMemory
  work_id_counter : Nat
  cf : ControlFlow
  posted_send_batches : List (List (Nat × RdmaMemory))
  posted_recv_batches : List (List (Nat × RdmaMemory))
deriving DecidableEq

/-- Outcome of polling a coroutine until it either suspends or completes one
loop iteration: `pending` (suspended, state unchanged), `fatal` (a panic), or
`ok` with the new state. -/
inductive StepOut where
  | pending : StepOut
  | fatal (msg : String) : StepOut
  | ok (s : EngineState) : StepOut
deriving DecidableEq

/-- `SendWindows::poll_next` (src/src/executor.rs:334): yields the local send
credit count when it is nonzero; when it is zero, adopts a nonzero peer grant
as the new local count and acknowledges it; otherwise pends. -/
def SendWindows.pollNext (cf : ControlFlow) : Option (Nat × ControlFlow) :=
  match cf.remaining_send_windows with
  | 0 =>
    let recv_windows := cf.other_side_recv_windows
    if recv_windows ≠ 0 then
      some (recv_windows,
        ControlFlow.ack_peer_recv_windows { cf with remaining_send_window := recv_windows })
    else
      none
  | Nat.succ n => some (Nat.succ n, cf)

/-- `RemainingReceiveWindows::poll_next` (src/src/executor.rs:436): yields
`WINDOW_SIZE` when the posted-receive count is below `WINDOW_SIZE / 2`,
otherwise pends. -/
def RemainingReceiveWindows.pollNext (W : Nat) (cf : ControlFlow) : Option Nat :=
  if cf.remaining_receive_windows < W / 2 then some W else none

/-- One loop iteration of `push_coroutine` (src/src/executor.rs:361):
await a credit yield from `SendWindows`, drain the user channel (awaiting the
first request when the local queue is empty), post
`min(pending, available_windows)` sends as one `post_send` batch, record each
pair in `processed_requests` (panicking on a duplicate), and consume the
credits. -/
def pushIterate (s : EngineState) : StepOut :=
  match SendWindows.pollNext s.cf with
  | none => .pending
  | some (available_windows, cf2) =>
    let all := s.work_requests ++ s.push_channel
    if all.isEmpty then .pending
    else
      let requests_number := min all.length available_windows
      let batch := all.take requests_number
      match insertAllNew s.processed_requests batch with
      | none => .fatal "duplicate entry"
      | some pr =>
        .ok { s with
          work_requests := all.drop requests_number,
          push_channel := [],
          processed_requests := pr,
          posted_send_batches := s.posted_send_batches ++ [batch],
          cf := cf2.subtract_remaining_send_windows requests_number }

/-- One loop iteration of `recv_buffers_coroutine` (src/src/executor.rs:446):
await the low-water yield from `RemainingReceiveWindows`, take `how_many`
buffers from the pool front (panicking when the pool runs dry), pair them with
work ids `work_id_counter .. work_id_counter + how_many - 1`, post them as one
`post_receive` batch, record them in `processed_requests` (panicking on a
duplicate), bump the counter by `how_many`, and add the recv credits. -/
def recvIterate (W : Nat) (s : EngineState) : StepOut :=
  match RemainingReceiveWindows.pollNext W s.cf with
  | none => .pending
  | some how_many =>
    if s.memory_pool.length < how_many then .fatal "Memory pool is empty."
    else
      let work_id := s.work_id_counter
      let receive_buffers := List.zip (List.range' work_id how_many) (s.memory_pool.take how_many)
      match insertAllNew s.processed_requests receive_buffers with
      | none => .fatal "duplicate entry"
      | some pr =>
        .ok { s with
          memory_pool := s.memory_pool.drop how_many,
          processed_requests := pr,
          posted_recv_batches := s.posted_recv_batches ++ [receive_buffers],
          work_id_counter := work_id + how_many,
          cf := s.cf.add_recv_windows how_many }

/-- The per-completion body of the drain loop of `completions_coroutine`
(src/src/executor.rs:550): a non-success status is fatal; RECV moves the
pending buffer (with its length set to `byte_len`) to the end of
`completed_pops` and counts a recv completion; SEND moves the pending buffer
into `completed_pushes` keyed by `wr_id` (duplicate is fatal); RDMA_WRITE and
RDMA_READ are acknowledged without touching the state; anything else is
fatal. -/
def processCompletion (s : EngineState) (recv_requests_completed : Nat) (c : Completion) :
    Except String (EngineState × Nat) :=
  if c.status ≠ IBV_WC_SUCCESS then
    .error "Completion queue event with error status."
  else if c.opcode = IBV_WC_RECV then
    match hmLookup s.processed_requests c.wr_id with
    | none => .error "Processed entry for completed wr missing."
    | some memory =>
      .ok ({ s with
          processed_requests := hmErase s.processed_requests c.wr_id,
          completed_pops := s.completed_pops ++ [memory.fillLength c.byte_len] },
        recv_requests_completed + 1)
  else if c.opcode = IBV_WC_SEND then
    match hmLookup s.processed_requests c.wr_id with
    | none => .error "Processed entry for completed wr missing."
    | some memory =>
      match tryInsertNew s.completed_pushes c.wr_id memory with
      | none => .error "duplicate entry"
      | some cp =>
        .ok ({ s with
            processed_requests := hmErase s.processed_requests c.wr_id,
            completed_pushes := cp },
          recv_requests_completed)
  else if c.opcode = IBV_WC_RDMA_WRITE then
    .ok (s, recv_requests_completed)
  else if c.opcode = IBV_WC_RDMA_READ then
    .ok (s, recv_requests_completed)
  else
    .error "Unknown ibv_wc opcode"

/-- The drain loop of `completions_coroutine` over one polled batch. -/
def processAll (s : EngineState) (rc : Nat) :
    List Completion → Except String (EngineState × Nat)
  | [] => .ok (s, rc)
  | c :: cs =>
    match processCompletion s rc c with
    | .error e => .error e
    | .ok (s2, rc2) => processAll s2 rc2 cs

/-- One loop iteration of `completions_coroutine` (src/src/executor.rs:515) on
a batch polled from the completion queue: process every completion, then
subtract the recv completions of the batch from the recv credit counter.  The
trailing `Yield` is a scheduling artifact with no state effect. -/
def completionsIterate (s : EngineState) (completed : List Completion) : StepOut :=
  match processAll s 0 completed with
  | .error e => .fatal e
  | .ok (s2, rc) => .ok { s2 with cf := s2.cf.subtract_recv_windows rc }

/-- `QueueTokenOp` (src/src/executor.rs:41). -/
inductive QueueTokenOp where
  | Push (work_id : Nat) : QueueTokenOp
  | Pop : QueueTokenOp
deriving DecidableEq

/-- `QueueToken` (src/src/executor.rs:35); `task_id` is the index of the
connection in the executor task vector. -/
structure QueueToken where
  task_id : Nat
  op : QueueTokenOp
deriving DecidableEq

/-- `CompletedRequest` (src/src/executor.rs:50). -/
inductive CompletedRequest where
  | Pop (memory : RdmaMemory) : CompletedRequest
  | Push (memory : RdmaMemory) : CompletedRequest
deriving DecidableEq

/-- The state-changing part of `Executor::push` (src/src/executor.rs:210):
take the current work id, bump the counter, and append the work request to the
push channel; returns the work id carried by the resulting `Push` token.  The
poll of the push coroutine that `Executor::push` performs afterwards is a
separate `pushIterate` step of the transition system. -/
def Executor.pushEnqueue (s : EngineState) (memory : RdmaMemory) : EngineState × Nat :=
  let work_id := s.work_id_counter
  ({ s with
      work_id_counter := work_id + 1,
      push_channel := s.push_channel ++ [(work_id, memory)] },
    work_id)

/-- `Executor::pop` (src/src/executor.rs:238): the executor's task vector is
untouched and a token tagged `Pop` against the given connection is returned
(the `schedule` call in the body is commented out in the source). -/
def Executor.pop (tasks : List EngineState) (task_handle : Nat) :
    List EngineState × QueueToken :=
  (tasks, { task_id := task_handle, op := QueueTokenOp.Pop })

/-- `Executor::wait` (src/src/executor.rs:298): for a push token remove the
entry under the token's work id from `completed_pushes`; for a pop token take
the buffer at the back of `completed_pops` (`Vec::pop`). -/
def Executor.wait (s : EngineState) (op : QueueTokenOp) :
    Option (CompletedRequest × EngineState) :=
  match op with
  | QueueTokenOp.Push work_id =>
    (hmLookup s.completed_pushes work_id).map
      (fun p => (CompletedRequest.Push p,
        { s with completed_pushes := hmErase s.completed_pushes work_id }))
  | QueueTokenOp.Pop =>
    match s.completed_pops.getLast? with
    | none => none
    | some p => some (CompletedRequest.Pop p, { s with completed_pops := s.completed_pops.dropLast })

/-- Modelled from the spec §7: the error taxonomy the specification names; the
source defines no such type (its failures are panics), but the type is needed
to state claims phrased in terms of it. -/
inductive ApiError where
  | PoolExhausted : ApiError
  | ConnectionNotEstablished : ApiError
  | DuplicateWorkId : ApiError
  | UnsuccessfulCompletion : ApiError
  | UnknownOpcode : ApiError
  | PeerClosed : ApiError
deriving DecidableEq

/-- How an engine operation can fail: by a Rust panic (process-fatal), or with
a recoverable error of the spec's taxonomy. -/
inductive ExecFailure where
  | panicked (msg : String) : ExecFailure
  | recoverable (e : ApiError) : ExecFailure
deriving DecidableEq

/-- `Executor::malloc` (src/src/executor.rs:182): pop the front of the free
list; on an empty pool the source panics with "Out of memory!". -/
def Executor.malloc (s : EngineState) : Except ExecFailure (RdmaMemory × EngineState) :=
  match s.memory_pool with
  | [] => .error (.panicked "Out of memory!")
  | memory :: rest => .ok (memory, { s with memory_pool := rest })

/-- `Executor::free` (src/src/executor.rs:196): reset the buffer's access
state and push it to the back of the free list. -/
def Executor.free (s : EngineState) (memory : RdmaMemory) : EngineState :=
  { s with memory_pool := s.memory_pool ++ [memory.resetAccess] }

/-- `Executor::malloc` iterated `n` times, discarding the buffers (the
"consecutive mallocs with no free" of spec §8 scenario 4). -/
def mallocN : Nat → EngineState → Except ExecFailure EngineState
  | 0, s => .ok s
  | n + 1, s =>
    match Executor.malloc s with
    | .error e => .error e
    | .ok (_, s2) => mallocN n s2

/-- A buffer as `ProtectionDomain::register_chunk` returns it: registered,
zero logical length. -/
def freshBuffer : RdmaMemory := { bytes := [], len := 0 }

/-- The `2 * WINDOW_SIZE` buffers that `register_chunk(2 * WINDOW_SIZE)`
allocates in `Executor::add_new_connection` (src/src/executor.rs:135). -/
def freshChunk (count : Nat) : List RdmaMemory := List.replicate count freshBuffer

/-- The connection state as `Executor::add_new_connection`
(src/src/executor.rs:118) assembles it, before the initial poll of the
recv-buffers coroutine: empty queues and stores, work id counter at zero, the
given control-flow state, and the freshly registered pool. -/
def startState (cf0 : ControlFlow) (pool : List RdmaMemory) : EngineState :=
  { memory_pool := pool
    push_channel := []
    work_requests := []
    processed_requests := []
    completed_pushes := []
    completed_pops := []
    work_id_counter := 0
    cf := cf0
    posted_send_batches := []
    posted_recv_batches := [] }

/-- The events of the engine transition system; user calls, coroutine
iterations, polled completion batches, and the peer's one-sided credit-grant
write. -/
inductive Ev where
  | pushReq (work_id : Nat) (memory : RdmaMemory) : Ev
  | pushIter : Ev
  | recvIter : Ev
  | complBatch (cs : List Completion) : Ev
  | waitOp (op : QueueTokenOp) (r : CompletedRequest) : Ev
  | mallocOp (memory : RdmaMemory) : Ev
  | freeOp (memory : RdmaMemory) : Ev
  | peerGrant (g : Nat) : Ev

/-- One step of a single connection's engine, at window size `W`.  Coroutine
polls that suspend without completing an iteration leave the state unchanged
and are omitted (stutter steps).  `peerGrant` is the environment: the peer's
one-sided RDMA write into the grant inbox cell. -/
inductive Step (W : Nat) : EngineState → Ev → EngineState → Prop where
  | pushReq (s : EngineState) (memory : RdmaMemory) :
      Step W s (Ev.pushReq s.work_id_counter memory) (Executor.pushEnqueue s memory).1
  | pushIter (s s' : EngineState) (h : pushIterate s = StepOut.ok s') :
      Step W s Ev.pushIter s'
  | recvIter (s s' : EngineState) (h : recvIterate W s = StepOut.ok s') :
      Step W s Ev.recvIter s'
  | complBatch (s s' : EngineState) (cs : List Completion)
      (h : completionsIterate s cs = StepOut.ok s') :
      Step W s (Ev.complBatch cs) s'
  | waitOp (s s' : EngineState) (op : QueueTokenOp) (r : CompletedRequest)
      (h : Executor.wait s op = some (r, s')) :
      Step W s (Ev.waitOp op r) s'
  | mallocOp (s s' : EngineState) (memory : RdmaMemory)
      (h : Executor.malloc s = Except.ok (memory, s')) :
      Step W s (Ev.mallocOp memory) s'
  | freeOp (s : EngineState) (memory : RdmaMemory) :
      Step W s (Ev.freeOp memory) (Executor.free s memory)
  | peerGrant (s : EngineState) (g : Nat) :
      Step W s (Ev.peerGrant g) { s with cf := { s.cf with peer_inbox := g } }

/-- A finite execution of the engine: the reflexive-transitive closure of
`Step` with the event list recorded. -/
inductive Trace (W : Nat) : EngineState → List Ev → EngineState → Prop where
  | nil (s : EngineState) : Trace W s [] s
  | cons (s s2 s3 : EngineState) (e : Ev) (evs : List Ev)
      (h1 : Step W s e s2) (h2 : Trace W s2 evs s3) : Trace W s (e :: evs) s3

/-- Every `(work_id, buffer)` pair currently travelling the push path or
pending/completed under a work id: the push channel, the push coroutine's
local queue, the shared pending map, and the completed-pushes store. -/
def chain (s : EngineState) : List (Nat × RdmaMemory) :=
  s.push_channel ++ s.work_requests ++ s.processed_requests ++ s.completed_pushes

/-- Every work id in flight is below the shared counter. -/
def WidsBounded (s : EngineState) : Prop :=
  ∀ p ∈ chain s, p.1 < s.work_id_counter

/-- No two entries anywhere on the work-id chain share a work id. -/
def WidsUnique (s : EngineState) : Prop :=
  ((chain s).map Prod.fst).Nodup

/-! ### Helper lemmas about the hash-map model -/

theorem hmLookup_some_mem {m : HMap} {k : Nat} {v : RdmaMemory}
    (h : hmLookup m k = some v) : (k, v) ∈ m := by
  unfold hmLookup at h
  cases hf : m.find? (fun p => p.1 == k) with
  | none => rw [hf] at h; simp at h
  | some q =>
    rw [hf] at h
    simp only [Option.map_some'] at h
    have hq := List.find?_some hf
    have hqm := List.mem_of_find?_eq_some hf
    have hk : q.1 = k := by simpa using hq
    have hv : q.2 = v := by simpa using h
    have hkv : (k, v) = q := by rw [← hk, ← hv]
    rw [hkv]; exact hqm

theorem hmLookup_some_mem_keys {m : HMap} {k : Nat} {v : RdmaMemory}
    (h : hmLookup m k = some v) : k ∈ m.map Prod.fst := by
  exact List.mem_map_of_mem Prod.fst (hmLookup_some_mem h)

theorem hmLookup_hmErase_self (m : HMap) (k : Nat) :
    hmLookup (hmErase m k) k = none := by
  unfold hmLookup
  cases hf : (hmErase m k).find? (fun p => p.1 == k) with
  | none => rfl
  | some q =>
    have hq := List.find?_some hf
    have hqm := List.mem_of_find?_eq_some hf
    unfold hmErase at hqm
    have hne := List.of_mem_filter hqm
    simp only [bne_iff_ne, ne_eq] at hne
    have : q.1 = k := by simpa using hq
    exact absurd this hne

theorem hmErase_keys (m : HMap) (k : Nat) :
    (hmErase m k).map Prod.fst = (m.map Prod.fst).filter (fun x => x != k) := by
  induction m with
  | nil => rfl
  | cons a t ih =>
    unfold hmErase at *
    by_cases hak : a.1 = k
    · simp [List.filter_cons, hak, ih]
    · simp [List.filter_cons, hak, ih]

theorem insertAllNew_some_eq (l : List (Nat × RdmaMemory)) :
    ∀ m m', insertAllNew m l = some m' → m' = m ++ l := by
  induction l with
  | nil => intro m m' h; simpa [insertAllNew] using h.symm
  | cons a rest ih =>
    intro m m' h
    cases a with
    | mk k v =>
      unfold insertAllNew at h
      cases ht : tryInsertNew m k v with
      | none => rw [ht] at h; simp at h
      | some m2 =>
        rw [ht] at h
        have h2 := ih m2 m' h
        unfold tryInsertNew at ht
        cases hl : hmLookup m k with
        | some _ => rw [hl] at ht; simp at ht
        | none =>
          rw [hl] at ht
          simp only [Option.some.injEq] at ht
          rw [h2, ← ht]; simp

/-- When `k` occurs in a duplicate-free list, filtering it out and appending it
back is a permutation of the original. -/
theorem filter_ne_append_self_perm (K : List Nat) (k : Nat) (hk : k ∈ K) (hnd : K.Nodup) :
    List.Perm (K.filter (fun x => x != k) ++ [k]) K := by
  induction K with
  | nil => cases hk
  | cons a t ih =>
    rcases List.nodup_cons.mp hnd with ⟨hat, hndt⟩
    by_cases hak : a = k
    · subst hak
      have htfilter : t.filter (fun x => x != a) = t := by
        apply List.filter_eq_self.mpr
        intro x hx
        simp only [bne_iff_ne, ne_eq]
        intro hxa; exact hat (hxa ▸ hx)
      simp only [List.filter_cons, bne_self_eq_false, if_neg]
      simp [htfilter]
    · have hkt : k ∈ t := by
        cases List.mem_cons.mp hk with
        | inl h => exact absurd h.symm hak
        | inr h => exact h
      have := ih hkt hndt
      simp only [List.filter_cons]
      have hne : (a != k) = true := by simpa using hak
      rw [hne]
      simpa using (this.cons a)

/-! ### Shape lemmas for the pipeline iterations -/

theorem wait_push_shape {s : EngineState} {wid : Nat} {r : CompletedRequest} {s' : EngineState}
    (h : Executor.wait s (QueueTokenOp.Push wid) = some (r, s')) :
    ∃ p, hmLookup s.completed_pushes wid = some p ∧ r = CompletedRequest.Push p ∧
      s' = { s with completed_pushes := hmErase s.completed_pushes wid } := by
  simp only [Executor.wait] at h
  cases hl : hmLookup s.completed_pushes wid with
  | none => rw [hl] at h; simp at h
  | some p =>
    rw [hl] at h
    simp only [Option.map_some', Option.some.injEq, Prod.mk.injEq] at h
    exact ⟨p, rfl, h.1.symm, h.2.symm⟩

theorem wait_pop_shape {s : EngineState} {r : CompletedRequest} {s' : EngineState}
    (h : Executor.wait s QueueTokenOp.Pop = some (r, s')) :
    ∃ p, s.completed_pops.getLast? = some p ∧ r = CompletedRequest.Pop p ∧
      s' = { s with completed_pops := s.completed_pops.dropLast } := by
  simp only [Executor.wait] at h
  cases hl : s.completed_pops.getLast? with
  | none => rw [hl] at h; simp at h
  | some p =>
    rw [hl] at h
    simp only [Option.some.injEq, Prod.mk.injEq] at h
    exact ⟨p, rfl, h.1.symm, h.2.symm⟩

/-- Analysis of the credit stream: whenever `SendWindows::poll_next` yields, it
yields a positive count that equals the local send-credit counter at the time
of the yield, and the yield came either from a nonzero local counter (state
unchanged) or from adopting and acknowledging a nonzero peer grant. -/
theorem pollNext_spec {cf : ControlFlow} {n : Nat} {cf2 : ControlFlow}
    (h : SendWindows.pollNext cf = some (n, cf2)) :
    0 < n ∧ cf2.remaining_send_window = n ∧
      ((0 < cf.remaining_send_window ∧ n = cf.remaining_send_window ∧ cf2 = cf) ∨
       (cf.remaining_send_window = 0 ∧ n = cf.peer_inbox ∧ 0 < cf.peer_inbox ∧
        cf2 = { cf with remaining_send_window := cf.peer_inbox, peer_inbox := 0 })) := by
  unfold SendWindows.pollNext ControlFlow.remaining_send_windows
    ControlFlow.other_side_recv_windows ControlFlow.ack_peer_recv_windows at h
  rcases hr : cf.remaining_send_window with _ | m
  · rw [hr] at h
    simp only at h
    by_cases hg : cf.peer_inbox ≠ 0
    · rw [if_pos hg] at h
      simp only [Option.some.injEq, Prod.mk.injEq] at h
      have hpos : 0 < cf.peer_inbox := Nat.pos_of_ne_zero hg
      refine ⟨by omega, ?_, Or.inr ⟨rfl, h.1.symm, hpos, h.2.symm⟩⟩
      rw [← h.2, ← h.1]
    · rw [if_neg hg] at h; simp at h
  · rw [hr] at h
    simp only [Option.some.injEq, Prod.mk.injEq] at h
    refine ⟨by omega, ?_, Or.inl ⟨by omega, by omega, h.2.symm⟩⟩
    rw [← h.2, hr]
    omega

/-- Full description of a completed push-pipeline iteration: the yield from the
credit stream, the nonempty drained request list, the successful insertion, and
the exact resulting state. -/
theorem pushIterate_ok_shape {s s' : EngineState} (h : pushIterate s = StepOut.ok s') :
    ∃ c cf2 pr,
      SendWindows.pollNext s.cf = some (c, cf2) ∧
      (s.work_requests ++ s.push_channel) ≠ [] ∧
      insertAllNew s.processed_requests
        ((s.work_requests ++ s.push_channel).take
          (min (s.work_requests ++ s.push_channel).length c)) = some pr ∧
      s' = { s with
        work_requests := (s.work_requests ++ s.push_channel).drop
          (min (s.work_requests ++ s.push_channel).length c),
        push_channel := [],
        processed_requests := pr,
        posted_send_batches := s.posted_send_batches ++
          [(s.work_requests ++ s.push_channel).take
            (min (s.work_requests ++ s.push_channel).length c)],
        cf := cf2.subtract_remaining_send_windows
          (min (s.work_requests ++ s.push_channel).length c) } := by
  unfold pushIterate at h
  cases hp : SendWindows.pollNext s.cf with
  | none => rw [hp] at h; simp at h
  | some p =>
    cases p with
    | mk c cf2 =>
      rw [hp] at h
      simp only at h
      by_cases hemp : (s.work_requests ++ s.push_channel).isEmpty
      · rw [if_pos hemp] at h; simp at h
      · rw [if_neg hemp] at h
        cases hins : insertAllNew s.processed_requests
            ((s.work_requests ++ s.push_channel).take
              (min (s.work_requests ++ s.push_channel).length c)) with
        | none => rw [hins] at h; simp at h
        | some pr =>
          rw [hins] at h
          simp only [StepOut.ok.injEq] at h
          exact ⟨c, cf2, pr, rfl, by simpa [List.isEmpty_iff] using hemp, hins, h.symm⟩

/-- Full description of a completed recv-refill iteration. -/
theorem recvIterate_ok_shape {W : Nat} {s s' : EngineState}
    (h : recvIterate W s = StepOut.ok s') :
    ∃ pr,
      RemainingReceiveWindows.pollNext W s.cf = some W ∧
      ¬ s.memory_pool.length < W ∧
      insertAllNew s.processed_requests
        (List.zip (List.range' s.work_id_counter W) (s.memory_pool.take W)) = some pr ∧
      s' = { s with
        memory_pool := s.memory_pool.drop W,
        processed_requests := pr,
        posted_recv_batches := s.posted_recv_batches ++
          [List.zip (List.range' s.work_id_counter W) (s.memory_pool.take W)],
        work_id_counter := s.work_id_counter + W,
        cf := s.cf.add_recv_windows W } := by
  unfold recvIterate at h
  cases hp : RemainingReceiveWindows.pollNext W s.cf with
  | none => rw [hp] at h; simp at h
  | some hm =>
    have hmW : hm = W := by
      unfold RemainingReceiveWindows.pollNext at hp
      by_cases hc : s.cf.remaining_receive_windows < W / 2
      · rw [if_pos hc] at hp; simpa using hp.symm
      · rw [if_neg hc] at hp; simp at hp
    subst hmW
    rw [hp] at h
    simp only at h
    by_cases hlen : s.memory_pool.length < hm
    · rw [if_pos hlen] at h; simp at h
    · rw [if_neg hlen] at h
      cases hins : insertAllNew s.processed_requests
          (List.zip (List.range' s.work_id_counter hm) (s.memory_pool.take hm)) with
      | none => rw [hins] at h; simp at h
      | some pr =>
        rw [hins] at h
        simp only [StepOut.ok.injEq] at h
        exact ⟨pr, rfl, hlen, rfl, h.symm⟩

/-- Case analysis of one successfully processed completion. -/
theorem processCompletion_ok_cases {s : EngineState} {rc : Nat} {c : Completion}
    {s2 : EngineState} {rc2 : Nat}
    (h : processCompletion s rc c = Except.ok (s2, rc2)) :
    c.status = IBV_WC_SUCCESS ∧
    ((∃ memory, c.opcode = IBV_WC_RECV ∧
        hmLookup s.processed_requests c.wr_id = some memory ∧
        s2 = { s with
          processed_requests := hmErase s.processed_requests c.wr_id,
          completed_pops := s.completed_pops ++ [memory.fillLength c.byte_len] } ∧
        rc2 = rc + 1) ∨
     (∃ memory cp, c.opcode = IBV_WC_SEND ∧
        hmLookup s.processed_requests c.wr_id = some memory ∧
        tryInsertNew s.completed_pushes c.wr_id memory = some cp ∧
        s2 = { s with
          processed_requests := hmErase s.processed_requests c.wr_id,
          completed_pushes := cp } ∧
        rc2 = rc) ∨
     (s2 = s ∧ rc2 = rc)) := by
  unfold processCompletion at h
  split at h
  next hst => simp at h
  next hst =>
    push_neg at hst
    refine ⟨hst, ?_⟩
    split at h
    next hrecv =>
      split at h
      next hl => simp at h
      next memory hl =>
        simp only [Except.ok.injEq, Prod.mk.injEq] at h
        exact Or.inl ⟨memory, hrecv, hl, h.1.symm, h.2.symm⟩
    next hrecv =>
      split at h
      next hsend =>
        split at h
        next hl => simp at h
        next memory hl =>
          split at h
          next hins => simp at h
          next cp hins =>
            simp only [Except.ok.injEq, Prod.mk.injEq] at h
            exact Or.inr (Or.inl ⟨memory, cp, hsend, hl, hins, h.1.symm, h.2.symm⟩)
      next hsend =>
        split at h
        next hw =>
          simp only [Except.ok.injEq, Prod.mk.injEq] at h
          exact Or.inr (Or.inr ⟨h.1.symm, h.2.symm⟩)
        next hw =>
          split at h
          next hrd =>
            simp only [Except.ok.injEq, Prod.mk.injEq] at h
            exact Or.inr (Or.inr ⟨h.1.symm, h.2.symm⟩)
          next hrd => simp at h

/-- Processing one completion touches only the pending map, the completed
stores and the recv-completion count; every other field is untouched. -/
theorem processCompletion_frame {s : EngineState} {rc : Nat} {c : Completion}
    {s2 : EngineState} {rc2 : Nat}
    (h : processCompletion s rc c = Except.ok (s2, rc2)) :
    s2.memory_pool = s.memory_pool ∧ s2.push_channel = s.push_channel ∧
    s2.work_requests = s.work_requests ∧ s2.work_id_counter = s.work_id_counter ∧
    s2.cf = s.cf ∧ s2.posted_send_batches = s.posted_send_batches ∧
    s2.posted_recv_batches = s.posted_recv_batches := by
  obtain ⟨-, hcases⟩ := processCompletion_ok_cases h
  rcases hcases with ⟨m, -, -, hs2, -⟩ | ⟨m, cp, -, -, -, hs2, -⟩ | ⟨hs2, -⟩ <;>
    subst hs2 <;> exact ⟨rfl, rfl, rfl, rfl, rfl, rfl, rfl⟩

/-- The completion drain loop touches only the pending map, the completed
stores and the recv-completion count. -/
theorem processAll_frame (cs : List Completion) :
    ∀ {s : EngineState} {rc : Nat} {s2 : EngineState} {rc2 : Nat},
    processAll s rc cs = Except.ok (s2, rc2) →
    s2.memory_pool = s.memory_pool ∧ s2.push_channel = s.push_channel ∧
    s2.work_requests = s.work_requests ∧ s2.work_id_counter = s.work_id_counter ∧
    s2.cf = s.cf ∧ s2.posted_send_batches = s.posted_send_batches ∧
    s2.posted_recv_batches = s.posted_recv_batches := by
  induction cs with
  | nil =>
    intro s rc s2 rc2 h
    unfold processAll at h
    simp only [Except.ok.injEq, Prod.mk.injEq] at h
    rw [← h.1]
    exact ⟨rfl, rfl, rfl, rfl, rfl, rfl, rfl⟩
  | cons c rest ih =>
    intro s rc s2 rc2 h
    unfold processAll at h
    cases hc : processCompletion s rc c with
    | error e => rw [hc] at h; simp at h
    | ok p =>
      obtain ⟨ps, prc⟩ := p
      rw [hc] at h
      obtain ⟨f1, f2, f3, f4, f5, f6, f7⟩ := processCompletion_frame hc
      obtain ⟨g1, g2, g3, g4, g5, g6, g7⟩ := ih h
      exact ⟨g1.trans f1, g2.trans f2, g3.trans f3, g4.trans f4, g5.trans f5,
        g6.trans f6, g7.trans f7⟩

/-- Unpacking of one successful completion-pipeline iteration. -/
theorem completionsIterate_ok_shape {s : EngineState} {cs : List Completion} {s' : EngineState}
    (h : completionsIterate s cs = StepOut.ok s') :
    ∃ s2 rc, processAll s 0 cs = Except.ok (s2, rc) ∧
      s' = { s2 with cf := s2.cf.subtract_recv_windows rc } := by
  unfold completionsIterate at h
  cases hp : processAll s 0 cs with
  | error e => rw [hp] at h; simp at h
  | ok p =>
    rw [hp] at h
    simp only [StepOut.ok.injEq] at h
    exact ⟨p.1, p.2, rfl, h.symm⟩

theorem completionsIterate_posted {s : EngineState} {cs : List Completion} {s' : EngineState}
    (h : completionsIterate s cs = StepOut.ok s') :
    s'.posted_send_batches = s.posted_send_batches ∧
    s'.posted_recv_batches = s.posted_recv_batches ∧
    s'.work_id_counter = s.work_id_counter ∧
    s'.memory_pool = s.memory_pool ∧
    s'.push_channel = s.push_channel ∧
    s'.work_requests = s.work_requests := by
  obtain ⟨s2, rc, hall, hs⟩ := completionsIterate_ok_shape h
  obtain ⟨f1, f2, f3, f4, -, f6, f7⟩ := processAll_frame cs hall
  subst hs
  exact ⟨f6, f7, f4, f1, f2, f3⟩

/-! ### Concrete states used by witnesses and counterexamples -/

/-- The all-zero initial credit state. -/
def cfZ : ControlFlow :=
  { remaining_send_window := 0
    remaining_receive_window := 0
    peer_inbox := 0
    peer_outbox := 0 }

def bufX : RdmaMemory := { bytes := [1], len := 1 }

def bufY : RdmaMemory := { bytes := [2], len := 1 }

def emptyEngine : EngineState := startState cfZ []

/-! ### Claim theorems -/

/-- C7: for every drained completion, a non-success status is fatal; a
successful completion with an opcode that is none of RECV, SEND, RDMA_WRITE,
RDMA_READ is fatal; and RDMA_WRITE / RDMA_READ completions are acknowledged
without any state change. -/
theorem completion_error_dispatch (s : EngineState) (rc : Nat) (c : Completion) :
    (c.status ≠ IBV_WC_SUCCESS →
      processCompletion s rc c = Except.error "Completion queue event with error status.") ∧
    (c.opcode ≠ IBV_WC_RECV → c.opcode ≠ IBV_WC_SEND → c.opcode ≠ IBV_WC_RDMA_WRITE →
      c.opcode ≠ IBV_WC_RDMA_READ → c.status = IBV_WC_SUCCESS →
      processCompletion s rc c = Except.error "Unknown ibv_wc opcode") ∧
    ((c.opcode = IBV_WC_RDMA_WRITE ∨ c.opcode = IBV_WC_RDMA_READ) →
      c.status = IBV_WC_SUCCESS →
      processCompletion s rc c = Except.ok (s, rc)) := by
  refine ⟨?_, ?_, ?_⟩
  · intro hst
    unfold processCompletion
    rw [if_pos hst]
  · intro h1 h2 h3 h4 hst
    unfold processCompletion
    rw [if_neg (by simp [hst]), if_neg h1, if_neg h2, if_neg h3, if_neg h4]
  · intro hop hst
    unfold processCompletion
    rcases hop with hw | hrd
    · rw [if_neg (by simp [hst]),
        if_neg (by rw [hw]; unfold IBV_WC_RDMA_WRITE IBV_WC_RECV; omega),
        if_neg (by rw [hw]; unfold IBV_WC_RDMA_WRITE IBV_WC_SEND; omega),
        if_pos hw]
    · rw [if_neg (by simp [hst]),
        if_neg (by rw [hrd]; unfold IBV_WC_RDMA_READ IBV_WC_RECV; omega),
        if_neg (by rw [hrd]; unfold IBV_WC_RDMA_READ IBV_WC_SEND; omega),
        if_neg (by rw [hrd]; unfold IBV_WC_RDMA_READ IBV_WC_RDMA_WRITE; omega),
        if_pos hrd]

/-- Witness for C7 at concrete completions: an errored completion, an unknown
opcode, and an RDMA_WRITE acknowledgment. -/
theorem completion_error_dispatch_witness :
    processCompletion emptyEngine 0 { wr_id := 0, status := 5, opcode := 0, byte_len := 0 } =
      Except.error "Completion queue event with error status." ∧
    processCompletion emptyEngine 0 { wr_id := 0, status := 0, opcode := 7, byte_len := 0 } =
      Except.error "Unknown ibv_wc opcode" ∧
    processCompletion emptyEngine 0 { wr_id := 0, status := 0, opcode := 1, byte_len := 0 } =
      Except.ok (emptyEngine, 0) :=
  ⟨(completion_error_dispatch emptyEngine 0 _).1 (by decide),
   (completion_error_dispatch emptyEngine 0 _).2.1
     (by decide) (by decide) (by decide) (by decide) (by decide),
   (completion_error_dispatch emptyEngine 0 _).2.2 (Or.inl (by decide)) (by decide)⟩

/-- C8: `pop` is pure bookkeeping: the executor state (hence every
connection's pool, pending maps, completed stores, credit counters and work-id
counter) is returned unchanged, and the returned token is tagged `Pop` against
the given connection. -/
theorem pop_is_pure_bookkeeping (tasks : List EngineState) (task_handle : Nat) :
    (Executor.pop tasks task_handle).1 = tasks ∧
    (Executor.pop tasks task_handle).2.task_id = task_handle ∧
    (Executor.pop tasks task_handle).2.op = QueueTokenOp.Pop :=
  ⟨rfl, rfl, rfl⟩

/-- C9: a successful `wait` on a push token consumes the completed entry: the
work id is gone from the completed-pushes map, so a second `wait` on a copy of
the same token finds nothing. -/
theorem wait_consumes_completed_push (s : EngineState) (wid : Nat)
    (r : CompletedRequest) (s' : EngineState)
    (h : Executor.wait s (QueueTokenOp.Push wid) = some (r, s')) :
    hmLookup s'.completed_pushes wid = none ∧
    Executor.wait s' (QueueTokenOp.Push wid) = none := by
  obtain ⟨p, hl, hr, hs⟩ := wait_push_shape h
  subst hs
  refine ⟨?_, ?_⟩
  · simpa using hmLookup_hmErase_self s.completed_pushes wid
  · simp [Executor.wait, hmLookup_hmErase_self]

def c9state : EngineState := { emptyEngine with completed_pushes := [(0, bufX)] }

def c9after : EngineState := { emptyEngine with completed_pushes := [] }

/-- Witness for C9: a concrete satisfied wait followed by an empty second
wait. -/
theorem wait_consumes_completed_push_witness :
    hmLookup c9after.completed_pushes 0 = none ∧
    Executor.wait c9after (QueueTokenOp.Push 0) = none :=
  wait_consumes_completed_push c9state 0 (CompletedRequest.Push bufX) c9after rfl

/-- C10: the completed-pops sequence is used LIFO: the completion pipeline
appends received buffers at the back, and `wait` on a pop token removes from
the back, returning the most recently appended buffer. -/
theorem wait_pop_returns_most_recent :
    (∀ (s : EngineState) (l : List RdmaMemory) (b : RdmaMemory),
      s.completed_pops = l ++ [b] →
      Executor.wait s QueueTokenOp.Pop =
        some (CompletedRequest.Pop b, { s with completed_pops := l })) ∧
    (∀ (s : EngineState) (rc : Nat) (c : Completion) (s2 : EngineState) (rc2 : Nat),
      c.status = IBV_WC_SUCCESS → c.opcode = IBV_WC_RECV →
      processCompletion s rc c = Except.ok (s2, rc2) →
      ∃ memory, s2.completed_pops = s.completed_pops ++ [memory]) := by
  constructor
  · intro s l b hpops
    simp only [Executor.wait, hpops]
    rw [List.getLast?_concat, List.dropLast_concat]
  · intro s rc c s2 rc2 hst hop h
    unfold processCompletion at h
    rw [if_neg (by simp [hst]), if_pos hop] at h
    cases hl : hmLookup s.processed_requests c.wr_id with
    | none => rw [hl] at h; simp at h
    | some memory =>
      rw [hl] at h
      simp only [Except.ok.injEq, Prod.mk.injEq] at h
      exact ⟨memory.fillLength c.byte_len, by rw [← h.1]⟩

def c10state : EngineState := { emptyEngine with completed_pops := [bufX, bufY] }

def c10recvState : EngineState := { emptyEngine with processed_requests := [(5, bufX)] }

def c10recvAfter : EngineState :=
  { emptyEngine with processed_requests := [], completed_pops := [bufX.fillLength 1] }

/-- Witness for C10: with two buffers available, `wait` returns the later one,
not the older one; and a concrete RECV completion appends to the back. -/
theorem wait_pop_returns_most_recent_witness :
    Executor.wait c10state QueueTokenOp.Pop =
      some (CompletedRequest.Pop bufY, { c10state with completed_pops := [bufX] }) ∧
    bufY ≠ bufX ∧
    (∃ memory, c10recvAfter.completed_pops = c10recvState.completed_pops ++ [memory]) :=
  ⟨wait_pop_returns_most_recent.1 c10state [bufX] bufY rfl,
   by decide,
   wait_pop_returns_most_recent.2 c10recvState 0
     { wr_id := 5, status := 0, opcode := 128, byte_len := 1 } c10recvAfter 1
     rfl rfl rfl⟩

/-- C2: a completed push-pipeline iteration, with credit yield `c` and pending
requests `s.work_requests ++ s.push_channel`, posts exactly
`n = min(pending, c)` send work requests as one batched `post_send` call,
records each posted `(work_id, buffer)` pair in the pending map, and
decrements the send-credit counter by exactly `n`. -/
theorem push_iteration_posts_min_and_consumes
    (s s' : EngineState) (c : Nat) (cf2 : ControlFlow)
    (hpoll : SendWindows.pollNext s.cf = some (c, cf2))
    (h : pushIterate s = StepOut.ok s') :
    0 < c ∧
    s'.posted_send_batches = s.posted_send_batches ++
      [(s.work_requests ++ s.push_channel).take
        (min (s.work_requests ++ s.push_channel).length c)] ∧
    ((s.work_requests ++ s.push_channel).take
        (min (s.work_requests ++ s.push_channel).length c)).length =
      min (s.work_requests ++ s.push_channel).length c ∧
    s'.processed_requests = s.processed_requests ++
      (s.work_requests ++ s.push_channel).take
        (min (s.work_requests ++ s.push_channel).length c) ∧
    s'.cf.remaining_send_window + min (s.work_requests ++ s.push_channel).length c = c := by
  obtain ⟨c0, cf20, pr, hp0, hne, hins, hs⟩ := pushIterate_ok_shape h
  rw [hpoll] at hp0
  obtain ⟨hc, hcf⟩ := Prod.mk.injEq .. ▸ Option.some.inj hp0
  subst hc
  subst hcf
  obtain ⟨hcpos, hcf2, -⟩ := pollNext_spec hpoll
  have hle : min (s.work_requests ++ s.push_channel).length c ≤
      (s.work_requests ++ s.push_channel).length := Nat.min_le_left _ _
  have hlec : min (s.work_requests ++ s.push_channel).length c ≤ c := Nat.min_le_right _ _
  subst hs
  refine ⟨hcpos, rfl, ?_, insertAllNew_some_eq _ _ _ hins, ?_⟩
  · rw [List.length_take]
    omega
  · show cf2.remaining_send_window - _ + _ = c
    omega

def c2state : EngineState :=
  { emptyEngine with push_channel := [(0, bufX)], cf := ⟨2, 0, 0, 0⟩ }

def c2after : EngineState :=
  { emptyEngine with
    push_channel := []
    work_requests := []
    processed_requests := [(0, bufX)]
    posted_send_batches := [[(0, bufX)]]
    cf := ⟨1, 0, 0, 0⟩ }

/-- Witness for C2: one pending request, two credits; one send is posted and
one credit consumed. -/
theorem push_iteration_posts_min_and_consumes_witness :
    c2after.posted_send_batches = c2state.posted_send_batches ++ [[(0, bufX)]] ∧
    c2after.processed_requests = c2state.processed_requests ++ [(0, bufX)] ∧
    c2after.cf.remaining_send_window + 1 = 2 := by
  have h := push_iteration_posts_min_and_consumes c2state c2after 2 ⟨2, 0, 0, 0⟩ rfl rfl
  refine ⟨?_, ?_, ?_⟩
  · simpa [c2state, emptyEngine, startState] using h.2.1
  · simpa [c2state, emptyEngine, startState] using h.2.2.2.1
  · simpa [c2state, emptyEngine, startState] using h.2.2.2.2

/-- C3: no send work request is ever posted while the local send-credit count
is zero: any engine step that extends the posted-send log happened after the
credit stream yielded, the yield is positive and is the local credit counter
at posting time, and it came either from a nonzero local counter or from
adopting and acknowledging a nonzero peer grant. -/
theorem no_send_posted_at_zero_credit (W : Nat) (s s' : EngineState) (e : Ev)
    (hstep : Step W s e s')
    (hpost : s'.posted_send_batches ≠ s.posted_send_batches) :
    SendWindows.pollNext s.cf ≠ none ∧
    ∀ c cf2, SendWindows.pollNext s.cf = some (c, cf2) →
      0 < c ∧ cf2.remaining_send_window = c ∧
      ((0 < s.cf.remaining_send_window ∧ c = s.cf.remaining_send_window ∧ cf2 = s.cf) ∨
       (s.cf.remaining_send_window = 0 ∧ c = s.cf.peer_inbox ∧ 0 < s.cf.peer_inbox ∧
        cf2 = { s.cf with remaining_send_window := s.cf.peer_inbox, peer_inbox := 0 })) := by
  have hyield : ∀ c cf2, SendWindows.pollNext s.cf = some (c, cf2) →
      0 < c ∧ cf2.remaining_send_window = c ∧
      ((0 < s.cf.remaining_send_window ∧ c = s.cf.remaining_send_window ∧ cf2 = s.cf) ∨
       (s.cf.remaining_send_window = 0 ∧ c = s.cf.peer_inbox ∧ 0 < s.cf.peer_inbox ∧
        cf2 = { s.cf with remaining_send_window := s.cf.peer_inbox, peer_inbox := 0 })) := by
    intro c cf2 hp
    exact pollNext_spec hp
  refine ⟨?_, hyield⟩
  cases hstep with
  | pushReq memory => exact absurd rfl hpost
  | pushIter t h =>
    obtain ⟨c, cf2, pr, hp, -, -, -⟩ := pushIterate_ok_shape h
    rw [hp]
    simp
  | recvIter t h =>
    obtain ⟨pr, -, -, -, hs⟩ := recvIterate_ok_shape h
    subst hs
    exact absurd rfl hpost
  | complBatch t cs h =>
    exact absurd (completionsIterate_posted h).1 hpost
  | waitOp t op r h =>
    cases op with
    | Push wid =>
      obtain ⟨p, -, -, hs⟩ := wait_push_shape h
      subst hs
      exact absurd rfl hpost
    | Pop =>
      obtain ⟨p, -, -, hs⟩ := wait_pop_shape h
      subst hs
      exact absurd rfl hpost
  | mallocOp t memory h =>
    cases hm : s.memory_pool with
    | nil => unfold Executor.malloc at h; rw [hm] at h; simp at h
    | cons a rest =>
      unfold Executor.malloc at h
      rw [hm] at h
      simp only [Except.ok.injEq, Prod.mk.injEq] at h
      rw [← h.2] at hpost
      exact absurd rfl hpost
  | freeOp memory => exact absurd rfl hpost
  | peerGrant g => exact absurd rfl hpost

/-- Witness for C3: the concrete posting step from `c2state` happens with a
positive yield of two credits from the nonzero local counter. -/
theorem no_send_posted_at_zero_credit_witness :
    0 < 2 ∧ (⟨2, 0, 0, 0⟩ : ControlFlow).remaining_send_window = 2 ∧
      ((0 < c2state.cf.remaining_send_window ∧ 2 = c2state.cf.remaining_send_window ∧
          (⟨2, 0, 0, 0⟩ : ControlFlow) = c2state.cf) ∨
       (c2state.cf.remaining_send_window = 0 ∧ 2 = c2state.cf.peer_inbox ∧
          0 < c2state.cf.peer_inbox ∧
          (⟨2, 0, 0, 0⟩ : ControlFlow) =
            { c2state.cf with
              remaining_send_window := c2state.cf.peer_inbox
              peer_inbox := 0 })) :=
  (no_send_posted_at_zero_credit 4 c2state c2after Ev.pushIter
    (Step.pushIter c2state c2after rfl) (by decide)).2 2 ⟨2, 0, 0, 0⟩ rfl

/-- C6 counterexample: on an empty pool `Executor::malloc` panics with
"Out of memory!" (a process-fatal failure); it does not return the spec's
recoverable `PoolExhausted` error. -/
theorem malloc_pool_exhausted_counterexample :
    Executor.malloc emptyEngine = Except.error (ExecFailure.panicked "Out of memory!") ∧
    Executor.malloc emptyEngine ≠
      Except.error (ExecFailure.recoverable ApiError.PoolExhausted) := by
  refine ⟨rfl, ?_⟩
  intro h
  rw [show Executor.malloc emptyEngine =
      Except.error (ExecFailure.panicked "Out of memory!") from rfl] at h
  injection h with h2
  exact ExecFailure.noConfusion h2

theorem mallocN_drain (pool : List RdmaMemory) :
    ∀ s : EngineState, s.memory_pool = pool →
      mallocN pool.length s = Except.ok { s with memory_pool := [] } := by
  induction pool with
  | nil =>
    intro s hs
    cases s
    simp only at hs
    subst hs
    rfl
  | cons m rest ih =>
    intro s hs
    rw [List.length_cons]
    show mallocN (rest.length + 1) s = _
    unfold mallocN Executor.malloc
    rw [hs]
    simp only
    exact ih { s with memory_pool := rest } rfl

/-- C6 (amended): the pool is created with exactly `2 * WINDOW_SIZE` buffers,
and `malloc` fails -- by panicking "Out of memory!", not with a recoverable
error -- exactly when the free list is empty: it succeeds on any nonempty
pool, after `2 * WINDOW_SIZE` consecutive mallocs from the freshly registered
pool the next malloc fails, and after one `free` a malloc succeeds again. -/
theorem pool_size_and_malloc_failure (W : Nat) (cf0 : ControlFlow) :
    (freshChunk (2 * W)).length = 2 * W ∧
    (startState cf0 (freshChunk (2 * W))).memory_pool.length = 2 * W ∧
    (∀ s : EngineState, s.memory_pool = [] →
      Executor.malloc s = Except.error (ExecFailure.panicked "Out of memory!")) ∧
    (∀ (s : EngineState) (m : RdmaMemory) (rest : List RdmaMemory),
      s.memory_pool = m :: rest →
      Executor.malloc s = Except.ok (m, { s with memory_pool := rest })) ∧
    mallocN (2 * W) (startState cf0 (freshChunk (2 * W))) = Except.ok (startState cf0 []) ∧
    Executor.malloc (startState cf0 []) =
      Except.error (ExecFailure.panicked "Out of memory!") ∧
    (∀ m : RdmaMemory, Executor.malloc (Executor.free (startState cf0 []) m) =
      Except.ok (m.resetAccess, startState cf0 [])) := by
  refine ⟨List.length_replicate _ _, List.length_replicate _ _, ?_, ?_, ?_, rfl, ?_⟩
  · intro s hs
    unfold Executor.malloc
    rw [hs]
  · intro s m rest hs
    unfold Executor.malloc
    rw [hs]
  · have h := mallocN_drain (freshChunk (2 * W)) (startState cf0 (freshChunk (2 * W))) rfl
    simpa [freshChunk] using h
  · intro m
    rfl

/-- Witness for C6's amended statement at `WINDOW_SIZE = 4` (pool size 8). -/
theorem pool_size_and_malloc_failure_witness :
    (freshChunk 8).length = 8 ∧
    Executor.malloc (startState cfZ []) =
      Except.error (ExecFailure.panicked "Out of memory!") ∧
    mallocN 8 (startState cfZ (freshChunk 8)) = Except.ok (startState cfZ []) ∧
    Executor.malloc (Executor.free (startState cfZ []) bufX) =
      Except.ok (bufX.resetAccess, startState cfZ []) := by
  obtain ⟨h1, h2, h3, h4, h5, h6, h7⟩ := pool_size_and_malloc_failure 4 cfZ
  exact ⟨h1, h3 _ rfl, h5, h7 bufX⟩

/-! ### Work-id chain invariants along traces -/

theorem tryInsertNew_some_eq {m : HMap} {k : Nat} {v : RdmaMemory} {m2 : HMap}
    (h : tryInsertNew m k v = some m2) :
    hmLookup m k = none ∧ m2 = m ++ [(k, v)] := by
  unfold tryInsertNew at h
  cases hl : hmLookup m k with
  | some q => rw [hl] at h; simp at h
  | none =>
    rw [hl] at h
    simp only [Option.some.injEq] at h
    exact ⟨rfl, h.symm⟩

theorem malloc_ok_shape {s : EngineState} {memory : RdmaMemory} {s' : EngineState}
    (h : Executor.malloc s = Except.ok (memory, s')) :
    ∃ rest, s.memory_pool = memory :: rest ∧ s' = { s with memory_pool := rest } := by
  unfold Executor.malloc at h
  cases hm : s.memory_pool with
  | nil => rw [hm] at h; simp at h
  | cons a rest =>
    rw [hm] at h
    simp only [Except.ok.injEq, Prod.mk.injEq] at h
    exact ⟨rest, by rw [h.1], h.2.symm⟩

theorem chain_keys_eq (s : EngineState) :
    (chain s).map Prod.fst =
      ((s.push_channel.map Prod.fst ++ s.work_requests.map Prod.fst) ++
        s.processed_requests.map Prod.fst) ++ s.completed_pushes.map Prod.fst := by
  simp [chain]

/-- The work-id counter never decreases. -/
theorem step_counter_mono {W : Nat} {s s' : EngineState} {e : Ev} (hstep : Step W s e s') :
    s.work_id_counter ≤ s'.work_id_counter := by
  cases hstep with
  | pushReq memory => exact Nat.le_succ _
  | pushIter t h =>
    obtain ⟨c, cf2, pr, -, -, -, hs⟩ := pushIterate_ok_shape h
    subst hs; exact le_refl _
  | recvIter t h =>
    obtain ⟨pr, -, -, -, hs⟩ := recvIterate_ok_shape h
    subst hs; exact Nat.le_add_right _ _
  | complBatch t cs h =>
    rw [(completionsIterate_posted h).2.2.1]
  | waitOp t op r h =>
    cases op with
    | Push wid => obtain ⟨p, -, -, hs⟩ := wait_push_shape h; subst hs; exact le_refl _
    | Pop => obtain ⟨p, -, -, hs⟩ := wait_pop_shape h; subst hs; exact le_refl _
  | mallocOp t memory h =>
    obtain ⟨rest, -, hs⟩ := malloc_ok_shape h
    subst hs; exact le_refl _
  | freeOp memory => exact le_refl _
  | peerGrant g => exact le_refl _

theorem processCompletion_chain_subset {s : EngineState} {rc : Nat} {c : Completion}
    {s2 : EngineState} {rc2 : Nat} (h : processCompletion s rc c = Except.ok (s2, rc2)) :
    ∀ p ∈ chain s2, p ∈ chain s := by
  obtain ⟨-, hcases⟩ := processCompletion_ok_cases h
  intro p hp
  have hf : p ∈ hmErase s.processed_requests c.wr_id → p ∈ s.processed_requests :=
    fun hq => (List.filter_sublist _).subset hq
  rcases hcases with ⟨m, -, hl, hs2, -⟩ | ⟨m, cp, -, hl, hins, hs2, -⟩ | ⟨hs2, -⟩
  · subst hs2
    simp only [chain, List.mem_append] at hp ⊢
    tauto
  · subst hs2
    obtain ⟨-, hcpe⟩ := tryInsertNew_some_eq hins
    subst hcpe
    have hmem := hmLookup_some_mem hl
    have hnew : p = (c.wr_id, m) → p ∈ s.processed_requests := fun he => he ▸ hmem
    simp only [chain, List.mem_append, List.mem_singleton] at hp ⊢
    tauto
  · subst hs2; exact hp

theorem processAll_chain_subset (cs : List Completion) :
    ∀ {s : EngineState} {rc : Nat} {s2 : EngineState} {rc2 : Nat},
    processAll s rc cs = Except.ok (s2, rc2) → ∀ p ∈ chain s2, p ∈ chain s := by
  induction cs with
  | nil =>
    intro s rc s2 rc2 h p hp
    unfold processAll at h
    simp only [Except.ok.injEq, Prod.mk.injEq] at h
    rw [h.1]; exact hp
  | cons c rest ih =>
    intro s rc s2 rc2 h p hp
    unfold processAll at h
    cases hc : processCompletion s rc c with
    | error e => rw [hc] at h; simp at h
    | ok q =>
      obtain ⟨qs, qrc⟩ := q
      rw [hc] at h
      exact processCompletion_chain_subset hc p (ih h p hp)

/-- Any entry of the chain after a step was already on the chain, or carries a
freshly assigned work id (at least the old counter and below the new one). -/
theorem step_chain_mem {W : Nat} {s s' : EngineState} {e : Ev} (hstep : Step W s e s') :
    ∀ p ∈ chain s', p ∈ chain s ∨
      (s.work_id_counter ≤ p.1 ∧ p.1 < s'.work_id_counter) := by
  intro p hp
  cases hstep with
  | pushReq memory =>
    have hnew : p = (s.work_id_counter, memory) →
        s.work_id_counter ≤ p.1 ∧ p.1 < s.work_id_counter + 1 := by
      intro he; subst he; exact ⟨le_refl _, Nat.lt_succ_self _⟩
    simp only [chain, Executor.pushEnqueue, List.mem_append, List.mem_singleton] at hp ⊢
    tauto
  | pushIter t h =>
    obtain ⟨c, cf2, pr, -, -, hins, hs⟩ := pushIterate_ok_shape h
    obtain hpr := insertAllNew_some_eq _ _ _ hins
    subst hpr
    subst hs
    left
    have hdrop : p ∈ (s.work_requests ++ s.push_channel).drop
        (min (s.work_requests ++ s.push_channel).length c) →
        p ∈ s.work_requests ∨ p ∈ s.push_channel :=
      fun hq => List.mem_append.mp (List.drop_subset _ _ hq)
    have htake : p ∈ (s.work_requests ++ s.push_channel).take
        (min (s.work_requests ++ s.push_channel).length c) →
        p ∈ s.work_requests ∨ p ∈ s.push_channel :=
      fun hq => List.mem_append.mp (List.take_subset _ _ hq)
    simp only [chain, List.mem_append, List.not_mem_nil] at hp ⊢
    tauto
  | recvIter t h =>
    obtain ⟨pr, -, hlen, hins, hs⟩ := recvIterate_ok_shape h
    obtain hpr := insertAllNew_some_eq _ _ _ hins
    subst hpr
    subst hs
    have hzip : p ∈ List.zip (List.range' s.work_id_counter W) (s.memory_pool.take W) →
        s.work_id_counter ≤ p.1 ∧ p.1 < s.work_id_counter + W := by
      intro hq
      obtain ⟨pk, pv⟩ := p
      obtain ⟨h1, -⟩ := List.of_mem_zip hq
      rw [List.mem_range'] at h1
      simp only
      omega
    simp only [chain, List.mem_append] at hp ⊢
    tauto
  | complBatch t cs h =>
    obtain ⟨s2, rc, hall, hs⟩ := completionsIterate_ok_shape h
    subst hs
    left
    exact processAll_chain_subset cs hall p (by simpa [chain] using hp)
  | waitOp t op r h =>
    left
    cases op with
    | Push wid =>
      obtain ⟨q, -, -, hs⟩ := wait_push_shape h
      subst hs
      have hf : p ∈ hmErase s.completed_pushes wid → p ∈ s.completed_pushes :=
        fun hq => (List.filter_sublist _).subset hq
      simp only [chain, List.mem_append] at hp ⊢
      tauto
    | Pop =>
      obtain ⟨q, -, -, hs⟩ := wait_pop_shape h
      subst hs
      simpa [chain] using hp
  | mallocOp t memory h =>
    obtain ⟨rest, -, hs⟩ := malloc_ok_shape h
    subst hs
    left
    simpa [chain] using hp
  | freeOp memory =>
    left
    simpa [chain, Executor.free] using hp
  | peerGrant g =>
    left
    simpa [chain] using hp

/-- Every in-flight work id stays below the counter. -/
theorem step_bound {W : Nat} {s s' : EngineState} {e : Ev} (hstep : Step W s e s')
    (hb : WidsBounded s) : WidsBounded s' := by
  intro p hp
  rcases step_chain_mem hstep p hp with hold | ⟨h1, h2⟩
  · exact lt_of_lt_of_le (hb p hold) (step_counter_mono hstep)
  · exact h2

/-- An already-assigned work id keeps its buffer: entries never change the
buffer they associate with a given (old) work id. -/
theorem step_tracks {W : Nat} {s s' : EngineState} {e : Ev} (hstep : Step W s e s')
    {wid : Nat} {b : RdmaMemory} (hwid : wid < s.work_id_counter)
    (htrack : ∀ p ∈ chain s, p.1 = wid → p.2 = b) :
    ∀ p ∈ chain s', p.1 = wid → p.2 = b := by
  intro p hp hpw
  rcases step_chain_mem hstep p hp with hold | ⟨h1, -⟩
  · exact htrack p hold hpw
  · exact absurd h1 (by rw [hpw]; omega)

theorem processCompletion_nodup {s : EngineState} {rc : Nat} {c : Completion}
    {s2 : EngineState} {rc2 : Nat} (h : processCompletion s rc c = Except.ok (s2, rc2))
    (hu : ((chain s).map Prod.fst).Nodup) : ((chain s2).map Prod.fst).Nodup := by
  obtain ⟨-, hcases⟩ := processCompletion_ok_cases h
  rcases hcases with ⟨m, -, hl, hs2, -⟩ | ⟨m, cp, -, hl, hins, hs2, -⟩ | ⟨hs2, -⟩
  · subst hs2
    apply hu.sublist
    apply List.Sublist.map
    simp only [chain, hmErase]
    exact List.Sublist.append
      (List.Sublist.append (List.Sublist.refl _) (List.filter_sublist _))
      (List.Sublist.refl _)
  · subst hs2
    obtain ⟨hnone, hcpe⟩ := tryInsertNew_some_eq hins
    subst hcpe
    have hwidmem : c.wr_id ∈ s.processed_requests.map Prod.fst := hmLookup_some_mem_keys hl
    have hK3 : (s.processed_requests.map Prod.fst).Nodup := by
      rw [chain_keys_eq] at hu
      exact hu.of_append_left.of_append_right
    have hperm3 := filter_ne_append_self_perm _ _ hwidmem hK3
    have hkeys2 : (chain { s with
        processed_requests := hmErase s.processed_requests c.wr_id,
        completed_pushes := s.completed_pushes ++ [(c.wr_id, m)] }).map Prod.fst =
      ((s.push_channel.map Prod.fst ++ s.work_requests.map Prod.fst) ++
        (s.processed_requests.map Prod.fst).filter (fun x => x != c.wr_id)) ++
      (s.completed_pushes.map Prod.fst ++ [c.wr_id]) := by
      simp [chain, hmErase_keys]
    rw [hkeys2]
    rw [chain_keys_eq] at hu
    have hperm : List.Perm
        (((s.push_channel.map Prod.fst ++ s.work_requests.map Prod.fst) ++
          s.processed_requests.map Prod.fst) ++ s.completed_pushes.map Prod.fst)
        (((s.push_channel.map Prod.fst ++ s.work_requests.map Prod.fst) ++
          (s.processed_requests.map Prod.fst).filter (fun x => x != c.wr_id)) ++
        (s.completed_pushes.map Prod.fst ++ [c.wr_id])) := by
      rw [← Multiset.coe_eq_coe]
      have h2 : (((s.processed_requests.map Prod.fst).filter (fun x => x != c.wr_id) ++
          [c.wr_id] : List Nat) : Multiset Nat) =
          ((s.processed_requests.map Prod.fst : List Nat) : Multiset Nat) :=
        Multiset.coe_eq_coe.mpr hperm3
      simp only [← Multiset.coe_add] at h2 ⊢
      rw [← h2]
      abel
    exact hperm.nodup hu
  · subst hs2; exact hu

theorem processAll_nodup (cs : List Completion) :
    ∀ {s : EngineState} {rc : Nat} {s2 : EngineState} {rc2 : Nat},
    processAll s rc cs = Except.ok (s2, rc2) →
    ((chain s).map Prod.fst).Nodup → ((chain s2).map Prod.fst).Nodup := by
  induction cs with
  | nil =>
    intro s rc s2 rc2 h hu
    unfold processAll at h
    simp only [Except.ok.injEq, Prod.mk.injEq] at h
    rw [← h.1]; exact hu
  | cons c rest ih =>
    intro s rc s2 rc2 h hu
    unfold processAll at h
    cases hc : processCompletion s rc c with
    | error e => rw [hc] at h; simp at h
    | ok q =>
      obtain ⟨qs, qrc⟩ := q
      rw [hc] at h
      exact ih h (processCompletion_nodup hc hu)

/-- No step introduces a duplicate work id on the chain. -/
theorem step_nodup {W : Nat} {s s' : EngineState} {e : Ev} (hstep : Step W s e s')
    (hb : WidsBounded s) (hu : WidsUnique s) : WidsUnique s' := by
  unfold WidsUnique at hu ⊢
  have hnotin : ∀ k, s.work_id_counter ≤ k → k ∉ (chain s).map Prod.fst := by
    intro k hk hmem
    obtain ⟨p, hp, hpe⟩ := List.mem_map.mp hmem
    have := hb p hp
    omega
  cases hstep with
  | pushReq memory =>
    have hkeys : (chain (Executor.pushEnqueue s memory).1).map Prod.fst =
        (((s.push_channel.map Prod.fst ++ [s.work_id_counter]) ++
          s.work_requests.map Prod.fst) ++ s.processed_requests.map Prod.fst) ++
        s.completed_pushes.map Prod.fst := by
      simp [chain, Executor.pushEnqueue]
    rw [hkeys]
    rw [chain_keys_eq] at hu
    have hnd : ((((s.push_channel.map Prod.fst ++ s.work_requests.map Prod.fst) ++
        s.processed_requests.map Prod.fst) ++ s.completed_pushes.map Prod.fst) ++
        [s.work_id_counter]).Nodup := by
      rw [List.nodup_append]
      refine ⟨hu, List.nodup_singleton _, ?_⟩
      intro x hx hx2
      simp only [List.mem_singleton] at hx2
      subst hx2
      exact hnotin s.work_id_counter (le_refl _) (by rw [chain_keys_eq]; exact hx)
    have hperm : List.Perm
        ((((s.push_channel.map Prod.fst ++ s.work_requests.map Prod.fst) ++
          s.processed_requests.map Prod.fst) ++ s.completed_pushes.map Prod.fst) ++
          [s.work_id_counter])
        ((((s.push_channel.map Prod.fst ++ [s.work_id_counter]) ++
          s.work_requests.map Prod.fst) ++ s.processed_requests.map Prod.fst) ++
        s.completed_pushes.map Prod.fst) := by
      rw [← Multiset.coe_eq_coe]
      simp only [← Multiset.coe_add]
      abel
    exact hperm.nodup hnd
  | pushIter t h =>
    obtain ⟨c, cf2, pr, -, -, hins, hs⟩ := pushIterate_ok_shape h
    obtain hpr := insertAllNew_some_eq _ _ _ hins
    subst hpr
    subst hs
    rw [chain_keys_eq] at hu
    have hsplit : (((s.work_requests ++ s.push_channel).take
          (min (s.work_requests ++ s.push_channel).length c)).map Prod.fst ++
        ((s.work_requests ++ s.push_channel).drop
          (min (s.work_requests ++ s.push_channel).length c)).map Prod.fst : List Nat) =
        s.work_requests.map Prod.fst ++ s.push_channel.map Prod.fst := by
      rw [← List.map_append, List.take_append_drop, List.map_append]
    have hkeys : (chain { s with
        work_requests := (s.work_requests ++ s.push_channel).drop
          (min (s.work_requests ++ s.push_channel).length c),
        push_channel := [],
        processed_requests := s.processed_requests ++
          (s.work_requests ++ s.push_channel).take
            (min (s.work_requests ++ s.push_channel).length c),
        posted_send_batches := s.posted_send_batches ++
          [(s.work_requests ++ s.push_channel).take
            (min (s.work_requests ++ s.push_channel).length c)],
        cf := cf2.subtract_remaining_send_windows
          (min (s.work_requests ++ s.push_channel).length c) }).map Prod.fst =
      (((s.work_requests ++ s.push_channel).drop
          (min (s.work_requests ++ s.push_channel).length c)).map Prod.fst ++
        (s.processed_requests.map Prod.fst ++
          ((s.work_requests ++ s.push_channel).take
            (min (s.work_requests ++ s.push_channel).length c)).map Prod.fst)) ++
      s.completed_pushes.map Prod.fst := by
      simp [chain]
    rw [hkeys]
    have hperm : List.Perm
        (((s.push_channel.map Prod.fst ++ s.work_requests.map Prod.fst) ++
          s.processed_requests.map Prod.fst) ++ s.completed_pushes.map Prod.fst)
        ((((s.work_requests ++ s.push_channel).drop
            (min (s.work_requests ++ s.push_channel).length c)).map Prod.fst ++
          (s.processed_requests.map Prod.fst ++
            ((s.work_requests ++ s.push_channel).take
              (min (s.work_requests ++ s.push_channel).length c)).map Prod.fst)) ++
        s.completed_pushes.map Prod.fst) := by
      rw [← Multiset.coe_eq_coe]
      have h2 := congrArg (fun l => ((l : List Nat) : Multiset Nat)) hsplit
      simp only [← Multiset.coe_add] at h2 ⊢
      set B := ((s.push_channel.map Prod.fst : List Nat) : Multiset Nat)
      set A := ((s.work_requests.map Prod.fst : List Nat) : Multiset Nat)
      set P := ((s.processed_requests.map Prod.fst : List Nat) : Multiset Nat)
      set C := ((s.completed_pushes.map Prod.fst : List Nat) : Multiset Nat)
      set T := ((((s.work_requests ++ s.push_channel).take
        (min (s.work_requests ++ s.push_channel).length c)).map Prod.fst : List Nat) :
        Multiset Nat)
      set D := ((((s.work_requests ++ s.push_channel).drop
        (min (s.work_requests ++ s.push_channel).length c)).map Prod.fst : List Nat) :
        Multiset Nat)
      calc B + A + P + C = T + D + (P + C) := by rw [h2]; abel
        _ = D + (P + T) + C := by abel
    exact hperm.nodup hu
  | recvIter t h =>
    obtain ⟨pr, -, hlen, hins, hs⟩ := recvIterate_ok_shape h
    obtain hpr := insertAllNew_some_eq _ _ _ hins
    subst hpr
    subst hs
    push_neg at hlen
    have hzipkeys : (List.zip (List.range' s.work_id_counter W)
        (s.memory_pool.take W)).map Prod.fst = List.range' s.work_id_counter W := by
      apply List.map_fst_zip
      rw [List.length_range', List.length_take]
      omega
    have hkeys : (chain { s with
        memory_pool := s.memory_pool.drop W,
        processed_requests := s.processed_requests ++
          List.zip (List.range' s.work_id_counter W) (s.memory_pool.take W),
        posted_recv_batches := s.posted_recv_batches ++
          [List.zip (List.range' s.work_id_counter W) (s.memory_pool.take W)],
        work_id_counter := s.work_id_counter + W,
        cf := s.cf.add_recv_windows W }).map Prod.fst =
      ((s.push_channel.map Prod.fst ++ s.work_requests.map Prod.fst) ++
        (s.processed_requests.map Prod.fst ++ List.range' s.work_id_counter W)) ++
      s.completed_pushes.map Prod.fst := by
      simp [chain, hzipkeys]
    rw [hkeys]
    rw [chain_keys_eq] at hu
    have hrange : (List.range' s.work_id_counter W).Nodup :=
      List.nodup_range' s.work_id_counter W
    have hnd : ((((s.push_channel.map Prod.fst ++ s.work_requests.map Prod.fst) ++
        s.processed_requests.map Prod.fst) ++ s.completed_pushes.map Prod.fst) ++
        List.range' s.work_id_counter W).Nodup := by
      rw [List.nodup_append]
      refine ⟨hu, hrange, ?_⟩
      intro x hx hx2
      rw [List.mem_range'] at hx2
      refine hnotin x (by omega) ?_
      rw [chain_keys_eq]
      exact hx
    have hperm : List.Perm
        ((((s.push_channel.map Prod.fst ++ s.work_requests.map Prod.fst) ++
          s.processed_requests.map Prod.fst) ++ s.completed_pushes.map Prod.fst) ++
          List.range' s.work_id_counter W)
        (((s.push_channel.map Prod.fst ++ s.work_requests.map Prod.fst) ++
          (s.processed_requests.map Prod.fst ++ List.range' s.work_id_counter W)) ++
        s.completed_pushes.map Prod.fst) := by
      rw [← Multiset.coe_eq_coe]
      simp only [← Multiset.coe_add]
      abel
    exact hperm.nodup hnd
  | complBatch t cs h =>
    obtain ⟨s2, rc, hall, hs⟩ := completionsIterate_ok_shape h
    subst hs
    have := processAll_nodup cs hall hu
    simpa [chain] using this
  | waitOp t op r h =>
    cases op with
    | Push wid =>
      obtain ⟨q, -, -, hs⟩ := wait_push_shape h
      subst hs
      apply hu.sublist
      apply List.Sublist.map
      simp only [chain, hmErase]
      exact List.Sublist.append (List.Sublist.refl _) (List.filter_sublist _)
    | Pop =>
      obtain ⟨q, -, -, hs⟩ := wait_pop_shape h
      subst hs
      simpa [chain] using hu
  | mallocOp t memory h =>
    obtain ⟨rest, -, hs⟩ := malloc_ok_shape h
    subst hs
    simpa [chain] using hu
  | freeOp memory =>
    simpa [chain, Executor.free] using hu
  | peerGrant g =>
    simpa [chain] using hu

theorem trace_bound_unique {W : Nat} :
    ∀ {s : EngineState} {evs : List Ev} {s' : EngineState},
    Trace W s evs s' → WidsBounded s → WidsUnique s → WidsBounded s' ∧ WidsUnique s' := by
  intro s evs s' h
  induction h with
  | nil s => intro hb hu; exact ⟨hb, hu⟩
  | cons s s2 s3 e evs h1 h2 ih =>
    intro hb hu
    exact ih (step_bound h1 hb) (step_nodup h1 hb hu)

theorem trace_tracks {W : Nat} {wid : Nat} {b : RdmaMemory} :
    ∀ {s : EngineState} {evs : List Ev} {s' : EngineState},
    Trace W s evs s' → wid < s.work_id_counter →
    (∀ p ∈ chain s, p.1 = wid → p.2 = b) →
    wid < s'.work_id_counter ∧ (∀ p ∈ chain s', p.1 = wid → p.2 = b) := by
  intro s evs s' h
  induction h with
  | nil s => intro hw ht; exact ⟨hw, ht⟩
  | cons s s2 s3 e evs h1 h2 ih =>
    intro hw ht
    exact ih (lt_of_lt_of_le hw (step_counter_mono h1)) (step_tracks h1 hw ht)

theorem startState_bounded (cf0 : ControlFlow) (pool : List RdmaMemory) :
    WidsBounded (startState cf0 pool) := by
  intro p hp
  simp [chain, startState] at hp

theorem startState_unique (cf0 : ControlFlow) (pool : List RdmaMemory) :
    WidsUnique (startState cf0 pool) := by
  unfold WidsUnique
  simp [chain, startState]

/-- C4: in every state reachable from connection setup, no two concurrently
outstanding operations (the entries of the shared pending map, sends and
receives together) share a work identifier, and every in-flight identifier is
below the monotone per-connection counter, so identifiers are never reused. -/
theorem outstanding_work_ids_unique (W : Nat) (cf0 : ControlFlow) (pool : List RdmaMemory)
    (evs : List Ev) (s : EngineState)
    (h : Trace W (startState cf0 pool) evs s) :
    (s.processed_requests.map Prod.fst).Nodup ∧
    ∀ p ∈ s.processed_requests, p.1 < s.work_id_counter := by
  obtain ⟨hb, hu⟩ := trace_bound_unique h (startState_bounded cf0 pool)
    (startState_unique cf0 pool)
  constructor
  · unfold WidsUnique at hu
    rw [chain_keys_eq] at hu
    exact hu.of_append_left.of_append_right
  · intro p hp
    refine hb p ?_
    simp only [chain, List.mem_append]
    tauto

/-- Witness for C4 at the empty trace from a freshly set up connection. -/
theorem outstanding_work_ids_unique_witness :
    ((startState cfZ []).processed_requests.map Prod.fst).Nodup ∧
    ∀ p ∈ (startState cfZ []).processed_requests,
      p.1 < (startState cfZ []).work_id_counter :=
  outstanding_work_ids_unique 4 cfZ [] [] (startState cfZ []) (Trace.nil _)

/-- C1: the buffer a user submits with `push` is conserved through the push
channel, the pending map and the completed-pushes store: whatever steps the
engine takes afterwards, a `wait` on the returned push token that finds a
completed entry returns the Push variant carrying a buffer equal to the
submitted one, unmodified. -/
theorem push_then_wait_returns_pushed_buffer
    (W : Nat) (cf0 : ControlFlow) (pool : List RdmaMemory)
    (evs0 : List Ev) (s0 : EngineState) (memory : RdmaMemory) (s1 : EngineState) (wid : Nat)
    (evs : List Ev) (s2 : EngineState) (r : CompletedRequest) (s3 : EngineState)
    (h0 : Trace W (startState cf0 pool) evs0 s0)
    (hpush : Executor.pushEnqueue s0 memory = (s1, wid))
    (htr : Trace W s1 evs s2)
    (hwait : Executor.wait s2 (QueueTokenOp.Push wid) = some (r, s3)) :
    r = CompletedRequest.Push memory := by
  obtain ⟨hb0, -⟩ := trace_bound_unique h0 (startState_bounded cf0 pool)
    (startState_unique cf0 pool)
  unfold Executor.pushEnqueue at hpush
  simp only [Prod.mk.injEq] at hpush
  obtain ⟨hs1, hwid⟩ := hpush
  subst hwid
  have hwid1 : s0.work_id_counter < s1.work_id_counter := by
    rw [← hs1]; exact Nat.lt_succ_self _
  have htrack1 : ∀ p ∈ chain s1, p.1 = s0.work_id_counter → p.2 = memory := by
    intro p hp hpw
    rw [← hs1] at hp
    have hold : (p ∈ s0.push_channel ∨ p ∈ s0.work_requests ∨
        p ∈ s0.processed_requests ∨ p ∈ s0.completed_pushes) → p.2 = memory := by
      intro ho
      have hmem : p ∈ chain s0 := by
        simp only [chain, List.mem_append]; tauto
      have := hb0 p hmem
      omega
    have hnew : p = (s0.work_id_counter, memory) → p.2 = memory := fun he => by rw [he]
    simp only [chain, List.mem_append, List.mem_singleton] at hp
    tauto
  obtain ⟨-, htrack2⟩ := trace_tracks htr hwid1 htrack1
  obtain ⟨q, hlq, hr, -⟩ := wait_push_shape hwait
  have hqmem : (s0.work_id_counter, q) ∈ chain s2 := by
    have hmem := hmLookup_some_mem hlq
    simp only [chain, List.mem_append]
    tauto
  have hq : q = memory := htrack2 _ hqmem rfl
  rw [hr, hq]

def c1s0 : EngineState := startState ⟨1, 0, 0, 0⟩ []

def c1s1 : EngineState := { c1s0 with work_id_counter := 1, push_channel := [(0, bufX)] }

def c1s2 : EngineState :=
  { c1s0 with
    work_id_counter := 1
    processed_requests := [(0, bufX)]
    posted_send_batches := [[(0, bufX)]]
    cf := ⟨0, 0, 0, 0⟩ }

def c1s3 : EngineState := { c1s2 with processed_requests := [], completed_pushes := [(0, bufX)] }

def c1wc : Completion := { wr_id := 0, status := 0, opcode := 0, byte_len := 0 }

/-- Witness for C1: a concrete push of `bufX`, one push-pipeline iteration,
one SEND completion, and a satisfied wait returning `bufX`. -/
theorem push_then_wait_returns_pushed_buffer_witness :
    CompletedRequest.Push bufX = CompletedRequest.Push bufX :=
  push_then_wait_returns_pushed_buffer 4 ⟨1, 0, 0, 0⟩ [] [] c1s0 bufX c1s1 0
    [Ev.pushIter, Ev.complBatch [c1wc]] c1s3 (CompletedRequest.Push bufX)
    { c1s3 with completed_pushes := [] }
    (Trace.nil _) rfl
    (Trace.cons _ _ _ _ _ (Step.pushIter _ _ rfl)
      (Trace.cons _ _ _ _ _ (Step.complBatch _ _ _ rfl) (Trace.nil _)))
    rfl

/-! ### C5: the recv-refill amount and the posted-receive bound -/

def cex5 : EngineState := { emptyEngine with memory_pool := freshChunk 8, cf := ⟨0, 1, 0, 0⟩ }

def cex5After : EngineState :=
  { emptyEngine with
    memory_pool := freshChunk 4
    processed_requests := [(0, freshBuffer), (1, freshBuffer), (2, freshBuffer), (3, freshBuffer)]
    posted_recv_batches :=
      [[(0, freshBuffer), (1, freshBuffer), (2, freshBuffer), (3, freshBuffer)]]
    work_id_counter := 4
    cf := ⟨0, 5, 0, 4⟩ }

/-- C5 counterexample: with `WINDOW_SIZE = 4`, `RECV_WRS = 4` and one posted
receive outstanding, the claimed refill amount `min(WINDOW_SIZE, RECV_WRS -
posted) = 3`, but the refill stream yields `WINDOW_SIZE = 4` (the code never
consults `RECV_WRS`), and the iteration leaves 5 > `RECV_WRS` receives
posted. -/
theorem recv_refill_ignores_recv_wrs_counterexample :
    RemainingReceiveWindows.pollNext 4 cex5.cf = some 4 ∧
    min 4 (4 - cex5.cf.remaining_receive_window) = 3 ∧
    (4 : Nat) ≠ 3 ∧
    recvIterate 4 cex5 = StepOut.ok cex5After ∧
    cex5After.cf.remaining_receive_window = 5 ∧
    ¬ cex5After.cf.remaining_receive_window ≤ 4 :=
  ⟨rfl, rfl, by omega, rfl, rfl, by decide⟩

theorem step_recv_bound {W : Nat} {s s' : EngineState} {e : Ev} (hstep : Step W s e s')
    (hb : s.cf.remaining_receive_window ≤ W + W / 2 - 1) :
    s'.cf.remaining_receive_window ≤ W + W / 2 - 1 := by
  cases hstep with
  | pushReq memory => exact hb
  | pushIter t h =>
    obtain ⟨c, cf2, pr, hp, -, -, hs⟩ := pushIterate_ok_shape h
    subst hs
    obtain ⟨-, -, hcase⟩ := pollNext_spec hp
    rcases hcase with ⟨-, -, hcf2⟩ | ⟨-, -, -, hcf2⟩ <;> subst hcf2 <;> exact hb
  | recvIter t h =>
    obtain ⟨pr, hpoll, -, -, hs⟩ := recvIterate_ok_shape h
    subst hs
    unfold RemainingReceiveWindows.pollNext ControlFlow.remaining_receive_windows at hpoll
    by_cases hc : s.cf.remaining_receive_window < W / 2
    · show s.cf.remaining_receive_window + W ≤ W + W / 2 - 1
      omega
    · rw [if_neg hc] at hpoll; simp at hpoll
  | complBatch t cs h =>
    obtain ⟨s2, rc, hall, hs⟩ := completionsIterate_ok_shape h
    subst hs
    have hcf := (processAll_frame cs hall).2.2.2.2.1
    show s2.cf.remaining_receive_window - rc ≤ _
    rw [hcf]
    omega
  | waitOp t op r h =>
    cases op with
    | Push wid => obtain ⟨q, -, -, hs⟩ := wait_push_shape h; subst hs; exact hb
    | Pop => obtain ⟨q, -, -, hs⟩ := wait_pop_shape h; subst hs; exact hb
  | mallocOp t memory h =>
    obtain ⟨rest, -, hs⟩ := malloc_ok_shape h
    subst hs
    exact hb
  | freeOp memory => exact hb
  | peerGrant g => exact hb

theorem trace_recv_bound {W : Nat} :
    ∀ {s : EngineState} {evs : List Ev} {s' : EngineState},
    Trace W s evs s' → s.cf.remaining_receive_window ≤ W + W / 2 - 1 →
    s'.cf.remaining_receive_window ≤ W + W / 2 - 1 := by
  intro s evs s' h
  induction h with
  | nil s => exact id
  | cons s s2 s3 e evs h1 h2 ih => intro hb; exact ih (step_recv_bound h1 hb)

/-- C5 (amended): the refill amount of a completed recv-refill iteration is
always exactly `WINDOW_SIZE` (the code never consults `RECV_WRS`), fired only
when fewer than `WINDOW_SIZE / 2` receives are outstanding; consequently along
any trace from connection setup the posted-receive count never exceeds
`WINDOW_SIZE + WINDOW_SIZE / 2 - 1`, which stays within `RECV_WRS` exactly
when `RECV_WRS` is at least that bound (as in the shipped configuration
`RECV_WRS = 2048`, `WINDOW_SIZE = 1024`). -/
theorem recv_refill_window_bound (W : Nat) :
    (∀ s s' : EngineState, recvIterate W s = StepOut.ok s' →
      RemainingReceiveWindows.pollNext W s.cf = some W ∧
      s.cf.remaining_receive_window < W / 2 ∧
      s'.cf.remaining_receive_window = s.cf.remaining_receive_window + W) ∧
    (∀ (cf0 : ControlFlow) (pool : List RdmaMemory) (evs : List Ev) (s : EngineState),
      cf0.remaining_receive_window = 0 →
      Trace W (startState cf0 pool) evs s →
      s.cf.remaining_receive_window ≤ W + W / 2 - 1) ∧
    (∀ (RECV_WRS : Nat) (n : Nat),
      W + W / 2 - 1 ≤ RECV_WRS → n ≤ W + W / 2 - 1 → n ≤ RECV_WRS) := by
  refine ⟨?_, ?_, fun _ _ h1 h2 => le_trans h2 h1⟩
  · intro s s' h
    obtain ⟨pr, hpoll, -, -, hs⟩ := recvIterate_ok_shape h
    subst hs
    refine ⟨hpoll, ?_, rfl⟩
    unfold RemainingReceiveWindows.pollNext ControlFlow.remaining_receive_windows at hpoll
    by_cases hc : s.cf.remaining_receive_window < W / 2
    · exact hc
    · rw [if_neg hc] at hpoll; simp at hpoll
  · intro cf0 pool evs s h0 htr
    refine trace_recv_bound htr ?_
    show cf0.remaining_receive_window ≤ _
    rw [h0]
    exact Nat.zero_le _

/-- Witness for C5's amended statement: the concrete refill from `cex5` and
the bound at the initial state. -/
theorem recv_refill_window_bound_witness :
    RemainingReceiveWindows.pollNext 4 cex5.cf = some 4 ∧
    cex5After.cf.remaining_receive_window = cex5.cf.remaining_receive_window + 4 ∧
    (startState cfZ []).cf.remaining_receive_window ≤ 4 + 4 / 2 - 1 := by
  obtain ⟨h1, h2, h3⟩ := recv_refill_window_bound 4
  obtain ⟨ha, -, hc⟩ := h1 cex5 cex5After rfl
  exact ⟨ha, hc, h2 cfZ [] [] (startState cfZ []) rfl (Trace.nil _)⟩

end IoQueueRdma
